import Mathlib

/-!
Shallow embedding of the arbitrage-detection core of the
`aida-arbitrage-betting` repository:
`src/datamodel/betting_odds.py` (the `BettingOdds` record and its
validation) and `src/analysis/arbitrage.py` (the `ArbitrageAnalyzer`
class).

Numeric values are embedded as rationals (`ℚ`), so all identities hold
exactly; Python's `round(x, n)` (round-half-to-even on the scaled value)
is modelled by `pyRound`.  Python exceptions are modelled by
`Except String`: a raised `ValueError` becomes `.error msg`, a normal
return becomes `.ok v`.  Python truthiness of an `Optional[float]`
(used by the market filters, where `None` and `0.0` are both falsy) is
modelled by `truthy`.
-/

/-- Round-half-to-even of a rational to an integer, as Python's builtin
`round` behaves on exact values. -/
def roundHalfEven (x : ℚ) : ℤ :=
  let f : ℤ := Int.floor x
  let r : ℚ := x - f
  if r < 1/2 then f
  else if 1/2 < r then f + 1
  else if f % 2 = 0 then f else f + 1

/-- Python's `round(x, n)`: round-half-to-even at the `n`-th decimal. -/
def pyRound (x : ℚ) (n : ℕ) : ℚ :=
  (roundHalfEven (x * 10 ^ n) : ℚ) / 10 ^ n

/-- The `BettingOdds` dataclass of `src/datamodel/betting_odds.py`:
identity metadata plus one optional decimal-odds value per quoted
outcome (`None` meaning "this provider does not quote this outcome"). -/
structure BettingOdds where
  timestamp : ℤ
  source : String
  match_id : String
  home_team : String
  away_team : String
  home_win : Option ℚ := none
  draw : Option ℚ := none
  away_win : Option ℚ := none
  home_or_draw : Option ℚ := none
  away_or_draw : Option ℚ := none
  home_or_away : Option ℚ := none
  over_2_5 : Option ℚ := none
  under_2_5 : Option ℚ := none
  over_3_5 : Option ℚ := none
  under_3_5 : Option ℚ := none
  both_teams_score_yes : Option ℚ := none
  both_teams_score_no : Option ℚ := none
  first_half_home_win : Option ℚ := none
  first_half_draw : Option ℚ := none
  first_half_away_win : Option ℚ := none
  second_half_home_win : Option ℚ := none
  second_half_draw : Option ℚ := none
  second_half_away_win : Option ℚ := none
deriving DecidableEq, Repr

/-- The `odds_fields` list built inside `BettingOdds._validate`, in
source order. -/
def BettingOdds.oddsFields (b : BettingOdds) : List (Option ℚ) :=
  [b.home_win, b.draw, b.away_win, b.home_or_draw,
   b.away_or_draw, b.home_or_away, b.over_2_5, b.under_2_5,
   b.over_3_5, b.under_3_5,
   b.both_teams_score_yes, b.both_teams_score_no,
   b.first_half_home_win, b.first_half_draw, b.first_half_away_win,
   b.second_half_home_win, b.second_half_draw, b.second_half_away_win]

/-- `BettingOdds._validate`: raises `ValueError` on an empty identity
field or on a present odds value that is not strictly positive;
otherwise returns normally.  (Called from `__post_init__`, so a
constructed record always satisfies these invariants.) -/
def BettingOdds.validate (b : BettingOdds) : Except String Unit :=
  if b.source = "" then .error "Source cannot be empty"
  else if b.match_id = "" then .error "Match ID cannot be empty"
  else if b.home_team = "" ∨ b.away_team = "" then
    .error "Team names cannot be empty"
  else if b.oddsFields.any (fun o => match o with
      | some v => decide (v ≤ 0)
      | none => false) then
    .error "Odds must be positive"
  else .ok ()

/-- Python truthiness of an `Optional[float]` odds field: `None` and
`0.0` are falsy, every other value is truthy.  Used by the market
filters (`if all([odds.home_win, ...])` and friends). -/
def truthy : Option ℚ → Bool
  | none => false
  | some v => decide (v ≠ 0)

/-- `ArbitrageAnalyzer.calculate_implied_probability`: `1 / odds`,
raising `ValueError` when `odds <= 0`. -/
def calculate_implied_probability (odds : ℚ) : Except String ℚ :=
  if odds ≤ 0 then .error "Odds must be positive"
  else .ok (1 / odds)

/-- `ArbitrageAnalyzer.calculate_arbitrage_margin`:
`sum(probabilities) - 1.0`, with no precondition check in the code. -/
def calculate_arbitrage_margin (probabilities : List ℚ) : ℚ :=
  probabilities.sum - 1

/-- `ArbitrageAnalyzer.calculate_stake_distribution`: raises
`ValueError` when the list is empty or contains a non-positive value,
otherwise returns `total_stake / (Σ 1 / odds_i * odds_i)` per outcome. -/
def calculate_stake_distribution (odds : List ℚ) (total_stake : ℚ) :
    Except String (List ℚ) :=
  if odds = [] ∨ odds.any (fun o => decide (o ≤ 0)) then
    .error "All odds must be positive"
  else
    let total_inverse_odds : ℚ := (odds.map (fun o => 1 / o)).sum
    .ok (odds.map (fun o => total_stake / (total_inverse_odds * o)))

/-- Left-to-right effectful map in the `Except` monad: the Python
semantics of a list comprehension (or `max`, `next`, ...) whose body may
raise — the first exception aborts the whole computation. -/
def mapExcept (f : α → Except String β) : List α → Except String (List β)
  | [] => .ok []
  | x :: xs =>
    match f x with
    | .error e => .error e
    | .ok y =>
      match mapExcept f xs with
      | .error e => .error e
      | .ok ys => .ok (y :: ys)

/-- Python's `max` over a possibly-empty sequence of rationals:
`none` models the `ValueError` raised on an empty sequence. -/
def listMax : List ℚ → Option ℚ
  | [] => none
  | x :: xs => some (xs.foldl max x)

/-- Lift an `Option` into `Except`, with the exception message raised
when the value is absent. -/
def optionToExcept (msg : String) : Option α → Except String α
  | none => .error msg
  | some v => .ok v

/-- One outcome of a market: its report label (e.g. `home`) and the
`BettingOdds` field holding its quoted odds (e.g. `home_win`).  The
market analysers of `ArbitrageAnalyzer` differ only in this table. -/
structure MarketOutcome where
  label : String
  get : BettingOdds → Option ℚ

/-- The filter applied by every market analyser: keep the records whose
every outcome field of the market is truthy
(`all([odds.home_win, odds.draw, odds.away_win])` and friends). -/
def qualifies (outs : List MarketOutcome) (b : BettingOdds) : Bool :=
  outs.all (fun o => truthy (o.get b))

/-- `max(getattr(odds, attr) for odds in valid if ... is not None)`:
the best quoted value for one outcome among a list of records. -/
def bestFor (l : List BettingOdds) (f : BettingOdds → Option ℚ) : Option ℚ :=
  listMax (l.filterMap f)

/-- `next(odds.source for odds in valid if getattr(odds, attr) == v)`:
the source of the first record whose quote for the outcome equals `v`;
`StopIteration` when none matches. -/
def sourceFor (l : List BettingOdds) (f : BettingOdds → Option ℚ) (v : ℚ) :
    Except String String :=
  match l.find? (fun b => decide (f b = some v)) with
  | some b => .ok b.source
  | none => .error "StopIteration"

/-- One value of the opportunity dictionary built by the market
analysers: the `profit_margin_percent`, `total_implied_probability`,
`best_odds`, `sources` and `stake_distribution_100` entries, with the
two odds/source maps kept as label-keyed association lists in outcome
order. -/
structure OpportunityEntry where
  profit_margin_percent : ℚ
  total_implied_probability : ℚ
  best_odds : List (String × ℚ)
  sources : List (String × String)
  stake_distribution_100 : List ℚ
deriving DecidableEq, Repr

/-- The opportunity dictionary returned by the analysers: market name →
entry, as an insertion-ordered association list (Python `dict` with
pairwise-distinct market names). -/
abbrev Report := List (String × OpportunityEntry)

/-- `valid_odds`: the records quoting every outcome of the market. -/
def validFor (outs : List MarketOutcome) (odds_list : List BettingOdds) :
    List BettingOdds :=
  odds_list.filter (qualifies outs)

/-- The common body of `_analyze_1x2_market`, one iteration of the loop
of `_analyze_over_under_markets`, and `_analyze_btts_market`, which
differ only in the market name and outcome table: filter to records
quoting every outcome, require at least two, take the best odds and
first tying source per outcome, convert to implied probabilities, and
emit an entry exactly when the margin is strictly negative. -/
def analyze_market (name : String) (outs : List MarketOutcome)
    (odds_list : List BettingOdds) : Except String Report :=
  if (validFor outs odds_list).length < 2 then .ok []
  else
    match mapExcept
        (fun o => optionToExcept "max() arg is an empty sequence"
          (bestFor (validFor outs odds_list) o.get)) outs with
    | .error e => .error e
    | .ok bests =>
      match mapExcept (fun p => sourceFor (validFor outs odds_list) p.1.get p.2)
          (outs.zip bests) with
      | .error e => .error e
      | .ok sources =>
        match mapExcept calculate_implied_probability bests with
        | .error e => .error e
        | .ok probabilities =>
          if calculate_arbitrage_margin probabilities < 0 then
            match calculate_stake_distribution bests 100 with
            | .error e => .error e
            | .ok stakes =>
              .ok [(name,
                { profit_margin_percent :=
                    pyRound (|calculate_arbitrage_margin probabilities| * 100) 2,
                  total_implied_probability := pyRound probabilities.sum 4,
                  best_odds := (outs.map MarketOutcome.label).zip bests,
                  sources := (outs.map MarketOutcome.label).zip sources,
                  stake_distribution_100 := stakes })]
          else .ok []

/-- The margin a market analyser computes for a market, recomputed on
its own: best odds per outcome over the qualifying records, implied
probabilities, `calculate_arbitrage_margin`. -/
def marketMargin (outs : List MarketOutcome)
    (odds_list : List BettingOdds) : Except String ℚ :=
  match mapExcept
      (fun o => optionToExcept "max() arg is an empty sequence"
        (bestFor (validFor outs odds_list) o.get)) outs with
  | .error e => .error e
  | .ok bests =>
    match mapExcept calculate_implied_probability bests with
    | .error e => .error e
    | .ok probabilities => .ok (calculate_arbitrage_margin probabilities)

/-- Outcome table of the 1X2 market as read by `_analyze_1x2_market`. -/
def outcomes1x2 : List MarketOutcome :=
  [⟨"home", BettingOdds.home_win⟩,
   ⟨"draw", BettingOdds.draw⟩,
   ⟨"away", BettingOdds.away_win⟩]

/-- `ArbitrageAnalyzer._analyze_1x2_market`. -/
def analyze_1x2_market (odds_list : List BettingOdds) :
    Except String Report :=
  analyze_market "1x2" outcomes1x2 odds_list

/-- Outcome table of the over/under 2.5 market. -/
def outcomesOU25 : List MarketOutcome :=
  [⟨"over", BettingOdds.over_2_5⟩, ⟨"under", BettingOdds.under_2_5⟩]

/-- Outcome table of the over/under 3.5 market. -/
def outcomesOU35 : List MarketOutcome :=
  [⟨"over", BettingOdds.over_3_5⟩, ⟨"under", BettingOdds.under_3_5⟩]

/-- `ArbitrageAnalyzer._analyze_over_under_markets`: the loop over the
two hardcoded lines 2.5 and 3.5, accumulating their entries. -/
def analyze_over_under_markets (odds_list : List BettingOdds) :
    Except String Report :=
  match analyze_market "over_under_2_5" outcomesOU25 odds_list with
  | .error e => .error e
  | .ok r25 =>
    match analyze_market "over_under_3_5" outcomesOU35 odds_list with
    | .error e => .error e
    | .ok r35 => .ok (r25 ++ r35)

/-- Outcome table of the both-teams-to-score market. -/
def outcomesBtts : List MarketOutcome :=
  [⟨"yes", BettingOdds.both_teams_score_yes⟩,
   ⟨"no", BettingOdds.both_teams_score_no⟩]

/-- `ArbitrageAnalyzer._analyze_btts_market`. -/
def analyze_btts_market (odds_list : List BettingOdds) :
    Except String Report :=
  analyze_market "both_teams_score" outcomesBtts odds_list

/-- `ArbitrageAnalyzer.find_arbitrage_opportunities`: empty report for
fewer than two records, otherwise the union (all market names are
distinct, so list append) of the 1X2, over/under and both-teams-to-score
analyses. -/
def find_arbitrage_opportunities (odds_list : List BettingOdds) :
    Except String Report :=
  if odds_list.length < 2 then .ok []
  else
    match analyze_1x2_market odds_list with
    | .error e => .error e
    | .ok r1 =>
      match analyze_over_under_markets odds_list with
      | .error e => .error e
      | .ok r2 =>
        match analyze_btts_market odds_list with
        | .error e => .error e
        | .ok r3 => .ok (r1 ++ r2 ++ r3)

/-! ### Helper lemmas -/

theorem foldl_max_spec (xs : List ℚ) (x : ℚ) :
    (xs.foldl max x = x ∨ xs.foldl max x ∈ xs) ∧
      x ≤ xs.foldl max x ∧ ∀ y ∈ xs, y ≤ xs.foldl max x := by
  induction xs generalizing x with
  | nil => simp
  | cons z zs ih =>
    obtain ⟨hmem, hle, hall⟩ := ih (max x z)
    refine ⟨?_, ?_, ?_⟩
    · rcases hmem with h | h
      · rcases max_choice x z with hx | hx
        · left; simpa [List.foldl_cons, hx] using h
        · right; simp only [List.foldl_cons]; rw [h, hx]
          exact List.mem_cons_self _ _
      · right; exact List.mem_cons_of_mem _ h
    · exact le_trans (le_max_left x z) hle
    · intro y hy
      rcases List.mem_cons.mp hy with rfl | hy
      · exact le_trans (le_max_right x y) hle
      · exact hall y hy

theorem listMax_mem {l : List ℚ} {v : ℚ} (h : listMax l = some v) : v ∈ l := by
  match l with
  | [] => exact absurd h (by simp [listMax])
  | x :: xs =>
    simp only [listMax, Option.some.injEq] at h
    rcases (foldl_max_spec xs x).1 with h1 | h1
    · rw [← h, h1]; exact List.mem_cons_self _ _
    · rw [← h]; exact List.mem_cons_of_mem _ h1

theorem le_listMax {l : List ℚ} {v : ℚ} (h : listMax l = some v) :
    ∀ x ∈ l, x ≤ v := by
  match l with
  | [] => exact absurd h (by simp [listMax])
  | x :: xs =>
    simp only [listMax, Option.some.injEq] at h
    intro y hy
    rcases List.mem_cons.mp hy with rfl | hy
    · rw [← h]; exact (foldl_max_spec xs y).2.1
    · rw [← h]; exact (foldl_max_spec xs x).2.2 y hy

theorem listMax_isSome {l : List ℚ} (h : l ≠ []) : ∃ v, listMax l = some v := by
  match l with
  | [] => exact absurd rfl h
  | x :: xs => exact ⟨xs.foldl max x, rfl⟩

theorem mapExcept_ok_forall {α β : Type} {f : α → Except String β} :
    ∀ {l : List α} {ys : List β}, mapExcept f l = .ok ys →
      List.Forall₂ (fun x y => f x = Except.ok y) l ys
  | [], ys, h => by
    simp only [mapExcept, Except.ok.injEq] at h
    rw [← h]; exact List.Forall₂.nil
  | x :: xs, ys, h => by
    simp only [mapExcept] at h
    cases hfx : f x with
    | error e => rw [hfx] at h; exact Except.noConfusion h
    | ok y =>
      rw [hfx] at h
      cases hrec : mapExcept f xs with
      | error e => rw [hrec] at h; exact Except.noConfusion h
      | ok ys' =>
        rw [hrec] at h
        cases h
        exact List.Forall₂.cons hfx (mapExcept_ok_forall hrec)

theorem mapExcept_ok_of_forall {α β : Type} {f : α → Except String β} :
    ∀ {l : List α}, (∀ x ∈ l, ∃ y, f x = .ok y) →
      ∃ ys, mapExcept f l = .ok ys
  | [], _ => ⟨[], rfl⟩
  | x :: xs, h => by
    obtain ⟨y, hy⟩ := h x (List.mem_cons_self _ _)
    obtain ⟨ys, hys⟩ :=
      mapExcept_ok_of_forall (fun z hz => h z (List.mem_cons_of_mem _ hz))
    exact ⟨y :: ys, by simp only [mapExcept, hy, hys]⟩

theorem forall₂_fun_eq_map {α β : Type} {g : α → β} :
    ∀ {l : List α} {ys : List β},
      List.Forall₂ (fun x y => y = g x) l ys → ys = l.map g
  | _, _, List.Forall₂.nil => rfl
  | _, _, List.Forall₂.cons h hs => by
    simp only [List.map_cons, h, forall₂_fun_eq_map hs]

theorem cip_ok_iff {b p : ℚ} :
    calculate_implied_probability b = .ok p ↔ 0 < b ∧ p = 1 / b := by
  constructor
  · intro h
    simp only [calculate_implied_probability] at h
    by_cases hb : b ≤ 0
    · rw [if_pos hb] at h; exact Except.noConfusion h
    · rw [if_neg hb] at h
      cases h
      exact ⟨lt_of_not_le hb, rfl⟩
  · rintro ⟨hb, rfl⟩
    simp only [calculate_implied_probability, if_neg (not_le.mpr hb)]

theorem stake_distribution_unfold {odds : List ℚ} (t : ℚ)
    (hne : odds ≠ []) (hpos : ∀ o ∈ odds, 0 < o) :
    calculate_stake_distribution odds t =
      .ok (odds.map fun o => t / ((odds.map fun x => 1 / x).sum * o)) := by
  unfold calculate_stake_distribution
  rw [if_neg]
  rintro (h | h)
  · exact hne h
  · obtain ⟨o, ho, hle⟩ := List.any_eq_true.mp h
    exact absurd (of_decide_eq_true hle) (not_le.mpr (hpos o ho))

theorem inverse_sum_pos {odds : List ℚ} (hne : odds ≠ [])
    (hpos : ∀ o ∈ odds, 0 < o) : 0 < (odds.map fun x => 1 / x).sum := by
  apply List.sum_pos
  · intro a ha
    obtain ⟨o, ho, rfl⟩ := List.mem_map.mp ha
    exact div_pos one_pos (hpos o ho)
  · simpa using hne

theorem stakes_sum_eq {odds : List ℚ} (t : ℚ) (hne : odds ≠ [])
    (hpos : ∀ o ∈ odds, 0 < o) :
    (odds.map fun o => t / ((odds.map fun x => 1 / x).sum * o)).sum = t := by
  set w : ℚ := (odds.map fun x => 1 / x).sum with hw
  have hw0 : w ≠ 0 := ne_of_gt (inverse_sum_pos hne hpos)
  have hmap : (odds.map fun o => t / (w * o)) =
      odds.map fun o => t / w * (1 / o) := by
    apply List.map_congr_left
    intro o _
    rw [div_mul_div_comm, mul_one]
  rw [hmap, List.sum_map_mul_left, ← hw, div_mul_cancel₀ _ hw0]

theorem zip_self_map {α β : Type} :
    ∀ (l : List α) (g : α → β), l.zip (l.map g) = l.map fun a => (a, g a)
  | [], _ => rfl
  | x :: xs, g => by simp only [List.map_cons, List.zip_cons_cons,
      zip_self_map xs g]

/-! ### Claims C1, C2, C3: the three calculation primitives -/

/-- C1 counterexample: on the empty probability list,
`calculate_arbitrage_margin` does not fail — the code performs no input
check — but returns the value `-1`. -/
theorem arbitrage_margin_empty_counterexample :
    calculate_arbitrage_margin [] = -1 := by
  simp [calculate_arbitrage_margin]

/-- C1 (amended): for every list of probabilities, the empty list
included, `calculate_arbitrage_margin` returns `sum(probabilities) - 1`
and never fails; in particular the empty list yields `-1` rather than an
`InvalidInput` error. -/
theorem arbitrage_margin_spec (probabilities : List ℚ) :
    calculate_arbitrage_margin probabilities = probabilities.sum - 1 ∧
      calculate_arbitrage_margin [] = -1 :=
  ⟨rfl, arbitrage_margin_empty_counterexample⟩

/-- C3: `calculate_implied_probability` returns exactly `1 / odds` for
every strictly positive `odds`, and fails with the `ValueError`
(`InvalidOdds`) for every `odds ≤ 0`. -/
theorem implied_probability_spec (odds : ℚ) :
    (0 < odds → calculate_implied_probability odds = .ok (1 / odds)) ∧
    (odds ≤ 0 →
      calculate_implied_probability odds = .error "Odds must be positive") := by
  constructor
  · intro h
    simp only [calculate_implied_probability, if_neg (not_le.mpr h)]
  · intro h
    simp only [calculate_implied_probability, if_pos h]

theorem implied_probability_spec_witness :
    calculate_implied_probability 4 = .ok (1 / 4) ∧
    calculate_implied_probability (-3) = .error "Odds must be positive" :=
  ⟨(implied_probability_spec 4).1 (by norm_num),
   (implied_probability_spec (-3)).2 (by norm_num)⟩

/-- C2: for a non-empty list of strictly positive odds,
`calculate_stake_distribution` returns
`stake_i = total_stake / (w * odds_i)` with `w = Σ 1 / odds_i`; each
product `odds_i * stake_i` equals the constant `total_stake / w`, and
the stakes sum exactly to `total_stake`.  On an empty list or one with a
non-positive value it fails with the `ValueError` (`InvalidInput`). -/
theorem stake_distribution_spec (odds : List ℚ) (total_stake : ℚ) :
    (odds ≠ [] → (∀ o ∈ odds, 0 < o) →
      ∃ stakes : List ℚ,
        calculate_stake_distribution odds total_stake = .ok stakes ∧
        stakes = odds.map
          (fun o => total_stake / ((odds.map fun x => 1 / x).sum * o)) ∧
        (∀ p ∈ odds.zip stakes,
          p.1 * p.2 = total_stake / (odds.map fun x => 1 / x).sum) ∧
        stakes.sum = total_stake) ∧
    ((odds = [] ∨ ∃ o ∈ odds, o ≤ 0) →
      calculate_stake_distribution odds total_stake =
        .error "All odds must be positive") := by
  constructor
  · intro hne hpos
    refine ⟨_, stake_distribution_unfold total_stake hne hpos, rfl, ?_,
      stakes_sum_eq total_stake hne hpos⟩
    intro p hp
    set w : ℚ := (odds.map fun x => 1 / x).sum with hw
    have hw0 : w ≠ 0 := ne_of_gt (inverse_sum_pos hne hpos)
    have hzip : odds.zip (odds.map fun o => total_stake / (w * o)) =
        odds.map fun o => (o, total_stake / (w * o)) := zip_self_map odds _
    rw [hzip] at hp
    obtain ⟨o, ho, rfl⟩ := List.mem_map.mp hp
    have ho0 : o ≠ 0 := ne_of_gt (hpos o ho)
    field_simp
    ring
  · intro h
    unfold calculate_stake_distribution
    rw [if_pos]
    rcases h with h | ⟨o, ho, hle⟩
    · exact Or.inl h
    · exact Or.inr (List.any_eq_true.mpr ⟨o, ho, decide_eq_true hle⟩)

theorem stake_distribution_spec_witness :
    (∃ stakes : List ℚ,
      calculate_stake_distribution [2, 4, 4] 100 = .ok stakes ∧
      stakes = ([2, 4, 4] : List ℚ).map
        (fun o => (100 : ℚ) / ((([2, 4, 4] : List ℚ).map fun x => 1 / x).sum * o)) ∧
      (∀ p ∈ ([2, 4, 4] : List ℚ).zip stakes,
        p.1 * p.2 = (100 : ℚ) / (([2, 4, 4] : List ℚ).map fun x => 1 / x).sum) ∧
      stakes.sum = 100) ∧
    calculate_stake_distribution [] 100 = .error "All odds must be positive" :=
  ⟨(stake_distribution_spec [2, 4, 4] 100).1 (by decide) (by decide),
   (stake_distribution_spec [] 100).2 (Or.inl rfl)⟩

/-! ### Claim C7: Quote Record validation -/

/-- C7: constructing a `BettingOdds` record succeeds exactly when every
identity field is non-empty and every present odds value is strictly
positive; absent (`none`) odds fields never cause a failure.  (The
dataclass runs `_validate` from `__post_init__`, so `validate = .ok ()`
is exactly "construction succeeds".) -/
theorem validate_ok_iff (b : BettingOdds) :
    b.validate = .ok () ↔
      (b.source ≠ "" ∧ b.match_id ≠ "" ∧ b.home_team ≠ "" ∧
       b.away_team ≠ "" ∧ ∀ o ∈ b.oddsFields, ∀ v, o = some v → 0 < v) := by
  unfold BettingOdds.validate
  split_ifs with h1 h2 h3 h4
  · exact ⟨fun h => (nomatch h), fun ⟨hs, _⟩ => absurd h1 hs⟩
  · exact ⟨fun h => (nomatch h), fun ⟨_, hm, _⟩ => absurd h2 hm⟩
  · refine ⟨fun h => (nomatch h), ?_⟩
    rintro ⟨_, _, hh, ha, _⟩
    rcases h3 with h | h
    · exact absurd h hh
    · exact absurd h ha
  · refine ⟨fun h => (nomatch h), ?_⟩
    rintro ⟨_, _, _, _, hodds⟩
    obtain ⟨o, ho, hf⟩ := List.any_eq_true.mp h4
    match o, hf with
    | some v, hf =>
      have hv : v ≤ 0 := of_decide_eq_true hf
      exact absurd (hodds _ ho v rfl) (not_lt.mpr hv)
    | none, hf => exact Bool.noConfusion hf
  · constructor
    · intro _
      refine ⟨h1, h2, fun h => h3 (Or.inl h), fun h => h3 (Or.inr h), ?_⟩
      intro o ho v hv
      by_contra hneg
      apply h4
      apply List.any_eq_true.mpr
      refine ⟨o, ho, ?_⟩
      rw [hv]
      exact decide_eq_true (not_lt.mp hneg)
    · intro _; rfl

/-- A fully-quoted sample record (source "alpha" of spec Scenario B:
1X2 odds 2.50 / 3.20 / 2.80). -/
def sampleA : BettingOdds :=
  { timestamp := 0, source := "alpha", match_id := "m1",
    home_team := "Home", away_team := "Away",
    home_win := some (5/2), draw := some (16/5), away_win := some (14/5) }

/-- The second record of spec Scenario B (source "beta": 1X2 odds
2.10 / 3.80 / 3.20). -/
def sampleB : BettingOdds :=
  { timestamp := 0, source := "beta", match_id := "m1",
    home_team := "Home", away_team := "Away",
    home_win := some (21/10), draw := some (19/5), away_win := some (16/5) }

theorem validate_ok_iff_witness :
    sampleA.source ≠ "" ∧ sampleA.match_id ≠ "" ∧ sampleA.home_team ≠ "" ∧
    sampleA.away_team ≠ "" ∧
    ∀ o ∈ sampleA.oddsFields, ∀ v, o = some v → 0 < v :=
  (validate_ok_iff sampleA).mp (by
    simp [BettingOdds.validate, sampleA, BettingOdds.oddsFields])

/-! ### Claim C8: the Best-Odds Selector -/

/-- C8: whenever the selector (`max` over the values provided for an
outcome, `next` over the records whose quote equals it) reports best
odds `v` and source `s`, then `v` is quoted by some record, no record
quotes more than `v` for that outcome, and `s` is the source of a
record whose quote for that outcome equals `v` (hence of one of the
tying records). -/
theorem best_odds_selector_spec (l : List BettingOdds)
    (f : BettingOdds → Option ℚ) (v : ℚ) (s : String) :
    (bestFor l f = some v →
      (∃ b ∈ l, f b = some v) ∧ ∀ b ∈ l, ∀ x, f b = some x → x ≤ v) ∧
    (sourceFor l f v = .ok s → ∃ b ∈ l, f b = some v ∧ b.source = s) := by
  constructor
  · intro h
    constructor
    · exact List.mem_filterMap.mp (listMax_mem h)
    · intro b hb x hx
      exact le_listMax h x (List.mem_filterMap.mpr ⟨b, hb, hx⟩)
  · intro h
    unfold sourceFor at h
    cases hfind : l.find? (fun b => decide (f b = some v)) with
    | none => rw [hfind] at h; exact Except.noConfusion h
    | some b =>
      rw [hfind] at h
      cases h
      have hp := List.find?_some hfind
      simp only [decide_eq_true_eq] at hp
      exact ⟨b, List.mem_of_find?_eq_some hfind, hp, rfl⟩

theorem best_odds_selector_spec_witness :
    ((∃ b ∈ [sampleA, sampleB], b.home_win = some (5/2)) ∧
      ∀ b ∈ [sampleA, sampleB], ∀ x, b.home_win = some x → x ≤ 5/2) ∧
    (∃ b ∈ [sampleA, sampleB],
      b.home_win = some (5/2) ∧ b.source = "alpha") :=
  ⟨(best_odds_selector_spec [sampleA, sampleB] BettingOdds.home_win
      (5/2) "alpha").1 (by simp [bestFor, listMax, sampleA, sampleB]; norm_num),
   (best_odds_selector_spec [sampleA, sampleB] BettingOdds.home_win
      (5/2) "alpha").2 (by simp [sourceFor, sampleA, sampleB, List.find?])⟩

/-! ### Claim C9: determinism of the Opportunity Aggregator -/

/-- C9: `find_arbitrage_opportunities` is a pure function of its input
collection — two runs on the same immutable input yield identical
reports. -/
theorem find_arbitrage_opportunities_deterministic
    (l1 l2 : List BettingOdds) (h : l1 = l2) :
    find_arbitrage_opportunities l1 = find_arbitrage_opportunities l2 := by
  rw [h]

theorem find_arbitrage_opportunities_deterministic_witness :
    find_arbitrage_opportunities [sampleA, sampleB] =
      find_arbitrage_opportunities [sampleA, sampleB] :=
  find_arbitrage_opportunities_deterministic [sampleA, sampleB]
    [sampleA, sampleB] rfl

/-! ### Inversion lemmas for the market-analysis pipeline -/

theorem optionToExcept_ok_iff {α : Type} {msg : String} {o : Option α} {v : α} :
    optionToExcept msg o = .ok v ↔ o = some v := by
  cases o <;> simp [optionToExcept]

theorem bestFor_mem {l : List BettingOdds} {f : BettingOdds → Option ℚ}
    {v : ℚ} (h : bestFor l f = some v) : ∃ b ∈ l, f b = some v :=
  List.mem_filterMap.mp (listMax_mem h)

theorem sourceFor_ok {l : List BettingOdds} {f : BettingOdds → Option ℚ}
    {v : ℚ} (h : ∃ b ∈ l, f b = some v) : ∃ s, sourceFor l f v = .ok s := by
  obtain ⟨b, hb, hfb⟩ := h
  unfold sourceFor
  cases hfind : l.find? (fun x => decide (f x = some v)) with
  | some c => exact ⟨c.source, rfl⟩
  | none =>
    have hnone := List.find?_eq_none.mp hfind b hb
    simp [hfb] at hnone

theorem mapExcept_ok_length {α β : Type} {f : α → Except String β}
    {l : List α} {ys : List β} (h : mapExcept f l = .ok ys) :
    ys.length = l.length :=
  (mapExcept_ok_forall h).length_eq.symm

theorem sources_ok_of_bests {valid : List BettingOdds}
    {outs : List MarketOutcome} {bests : List ℚ} {msg : String}
    (hb : mapExcept (fun o => optionToExcept msg (bestFor valid o.get)) outs
      = .ok bests) :
    ∃ ss, mapExcept (fun p => sourceFor valid p.1.get p.2) (outs.zip bests)
      = .ok ss := by
  apply mapExcept_ok_of_forall
  intro p hp
  have h2 := mapExcept_ok_forall hb
  have hrel := List.forall₂_zip h2 (a := p.1) (b := p.2) (by simpa using hp)
  exact sourceFor_ok (bestFor_mem (optionToExcept_ok_iff.mp hrel))

theorem cip_mapExcept_inv :
    ∀ {bests probs : List ℚ},
      mapExcept calculate_implied_probability bests = .ok probs →
      (∀ b ∈ bests, 0 < b) ∧ probs = bests.map fun b => 1 / b
  | [], probs, h => by
    simp only [mapExcept, Except.ok.injEq] at h
    exact ⟨by simp, by simp [← h]⟩
  | b :: bs, probs, h => by
    simp only [mapExcept] at h
    cases hfb : calculate_implied_probability b with
    | error e => rw [hfb] at h; exact (nomatch h)
    | ok p =>
      rw [hfb] at h
      cases hrec : mapExcept calculate_implied_probability bs with
      | error e => rw [hrec] at h; exact (nomatch h)
      | ok ps =>
        rw [hrec] at h
        cases h
        obtain ⟨hb0, hp⟩ := cip_ok_iff.mp hfb
        obtain ⟨hall, hmap⟩ := cip_mapExcept_inv hrec
        refine ⟨?_, ?_⟩
        · intro x hx
          rcases List.mem_cons.mp hx with rfl | hx
          · exact hb0
          · exact hall x hx
        · rw [List.map_cons, ← hmap, hp]

theorem stake_distribution_ok_inv {odds : List ℚ} {t : ℚ} {stakes : List ℚ}
    (h : calculate_stake_distribution odds t = .ok stakes) :
    odds ≠ [] ∧ (∀ o ∈ odds, 0 < o) ∧
      stakes = odds.map fun o => t / ((odds.map fun x => 1 / x).sum * o) := by
  unfold calculate_stake_distribution at h
  by_cases hc : odds = [] ∨ (odds.any fun o => decide (o ≤ 0)) = true
  · rw [if_pos hc] at h
    exact (nomatch h)
  · push_neg at hc
    obtain ⟨hne, hany⟩ := hc
    have hpos : ∀ o ∈ odds, 0 < o := by
      intro o ho
      by_contra hle
      exact hany (List.any_eq_true.mpr
        ⟨o, ho, decide_eq_true (not_lt.mp hle)⟩)
    rw [if_neg (by push_neg; exact ⟨hne, hany⟩)] at h
    simp only [Except.ok.injEq] at h
    exact ⟨hne, hpos, h.symm⟩

theorem stake_distribution_pos {odds stakes : List ℚ} {t : ℚ}
    (ht : 0 < t)
    (h : calculate_stake_distribution odds t = .ok stakes) :
    ∀ s ∈ stakes, 0 < s := by
  obtain ⟨hne, hpos, rfl⟩ := stake_distribution_ok_inv h
  intro s hs
  obtain ⟨o, ho, rfl⟩ := List.mem_map.mp hs
  exact div_pos ht (mul_pos (inverse_sum_pos hne hpos) (hpos o ho))

theorem zip_map_snd {α β γ : Type} (g : β → γ) :
    ∀ (l1 : List α) (l2 : List β), l2.length ≤ l1.length →
      (l1.zip l2).map (fun q => g q.2) = l2.map g
  | _, [], _ => by simp
  | [], b :: bs, h => by simp at h
  | a :: as, b :: bs, h => by
    simp only [List.zip_cons_cons, List.map_cons]
    rw [zip_map_snd g as bs (Nat.le_of_succ_le_succ (by simpa using h))]

/-- Structural inversion of `analyze_market`: every emitted entry is
keyed by the market's name, its `best_odds` have implied probabilities
summing below `1`, and its reference stakes are all positive. -/
theorem analyze_market_entry_inv {name : String} {outs : List MarketOutcome}
    {l : List BettingOdds} {r : Report}
    (h : analyze_market name outs l = .ok r) :
    ∀ p ∈ r, p.1 = name ∧
      ((p.2.best_odds.map fun q => 1 / q.2).sum < 1) ∧
      (∀ s ∈ p.2.stake_distribution_100, 0 < s) := by
  unfold analyze_market at h
  split at h
  · cases h
    intro p hp
    exact absurd hp (List.not_mem_nil p)
  · split at h
    · exact (nomatch h)
    · rename_i bests hb
      split at h
      · exact (nomatch h)
      · rename_i sources hs
        split at h
        · exact (nomatch h)
        · rename_i probs hp
          split at h
          · rename_i hneg
            split at h
            · exact (nomatch h)
            · rename_i stakes hk
              cases h
              intro p hp2
              rcases List.mem_singleton.mp hp2 with rfl
              obtain ⟨hballpos, hpmap⟩ := cip_mapExcept_inv hp
              refine ⟨rfl, ?_, ?_⟩
              · have hlen : bests.length ≤
                    (outs.map MarketOutcome.label).length := by
                  rw [List.length_map, mapExcept_ok_length hb]
                have hz : ((outs.map MarketOutcome.label).zip bests).map
                    (fun q => 1 / q.2) = bests.map fun b => 1 / b :=
                  zip_map_snd _ _ _ hlen
                dsimp only
                rw [hz, ← hpmap]
                have hm2 : probs.sum - 1 < 0 := hneg
                exact sub_neg.mp hm2
              · exact stake_distribution_pos (by norm_num) hk
          · cases h
            intro p hp2
            exact absurd hp2 (List.not_mem_nil p)

/-- Structural inversion of `_analyze_over_under_markets`: its report is
the concatenation of the 2.5-line and 3.5-line analyses. -/
theorem ou_decomp {l : List BettingOdds} {r : Report}
    (h : analyze_over_under_markets l = .ok r) :
    ∃ r25 r35,
      analyze_market "over_under_2_5" outcomesOU25 l = .ok r25 ∧
      analyze_market "over_under_3_5" outcomesOU35 l = .ok r35 ∧
      r = r25 ++ r35 := by
  unfold analyze_over_under_markets at h
  split at h
  · exact (nomatch h)
  · rename_i r25 h25
    split at h
    · exact (nomatch h)
    · rename_i r35 h35
      cases h
      exact ⟨r25, r35, h25, h35, rfl⟩

/-- Structural inversion of `find_arbitrage_opportunities`: the report
is empty for fewer than two records, and otherwise is the concatenation
of the four market analyses the code runs. -/
theorem find_decomp {l : List BettingOdds} {r : Report}
    (h : find_arbitrage_opportunities l = .ok r) :
    (l.length < 2 ∧ r = []) ∨
    ∃ r1 r25 r35 rb,
      analyze_market "1x2" outcomes1x2 l = .ok r1 ∧
      analyze_market "over_under_2_5" outcomesOU25 l = .ok r25 ∧
      analyze_market "over_under_3_5" outcomesOU35 l = .ok r35 ∧
      analyze_market "both_teams_score" outcomesBtts l = .ok rb ∧
      r = r1 ++ (r25 ++ r35) ++ rb := by
  unfold find_arbitrage_opportunities at h
  split at h
  · rename_i hlen
    cases h
    exact Or.inl ⟨hlen, rfl⟩
  · split at h
    · exact (nomatch h)
    · rename_i r1 h1
      split at h
      · exact (nomatch h)
      · rename_i r2 h2
        split at h
        · exact (nomatch h)
        · rename_i r3 h3
          cases h
          obtain ⟨r25, r35, h25, h35, rfl⟩ := ou_decomp h2
          exact Or.inr ⟨r1, r25, r35, r3, h1, h25, h35, h3, rfl⟩

/-! ### Claim C4: boundary behaviour of the Opportunity Aggregator -/

/-- C4: the aggregator returns an empty report for fewer than two input
records (in particular for a single record); a market whose qualifying
records number fewer than two yields no entry; and a market whose
margin is non-negative (zero included) yields no entry. -/
theorem aggregator_boundary_spec (l : List BettingOdds) (name : String)
    (outs : List MarketOutcome) (m : ℚ) :
    (l.length < 2 → find_arbitrage_opportunities l = .ok []) ∧
    ((validFor outs l).length < 2 → analyze_market name outs l = .ok []) ∧
    (marketMargin outs l = .ok m → 0 ≤ m →
      analyze_market name outs l = .ok []) ∧
    (∀ b, find_arbitrage_opportunities [b] = .ok []) := by
  refine ⟨?_, ?_, ?_, ?_⟩
  · intro h
    unfold find_arbitrage_opportunities
    rw [if_pos h]
  · intro h
    unfold analyze_market
    rw [if_pos h]
  · intro hm hge
    unfold analyze_market
    by_cases hlen : (validFor outs l).length < 2
    · rw [if_pos hlen]
    · rw [if_neg hlen]
      unfold marketMargin at hm
      cases hb : mapExcept
          (fun o => optionToExcept "max() arg is an empty sequence"
            (bestFor (validFor outs l) o.get)) outs with
      | error e => rw [hb] at hm; exact (nomatch hm)
      | ok bests =>
        simp only [hb] at hm
        obtain ⟨ss, hss⟩ := sources_ok_of_bests hb
        cases hp : mapExcept calculate_implied_probability bests with
        | error e => rw [hp] at hm; exact (nomatch hm)
        | ok probs =>
          simp only [hp, Except.ok.injEq] at hm
          subst hm
          simp only [hb, hss, hp]
          rw [if_neg (not_lt.mpr hge)]
  · intro b
    unfold find_arbitrage_opportunities
    rw [if_pos (by simp)]

/-- First record of spec Scenario A (source "alpha": 1X2 odds
2.20 / 3.30 / 3.10) — a bookmaker-margin market, no arbitrage. -/
def sampleC : BettingOdds :=
  { timestamp := 0, source := "alpha", match_id := "m2",
    home_team := "Home", away_team := "Away",
    home_win := some (11/5), draw := some (33/10), away_win := some (31/10) }

/-- Second record of spec Scenario A (source "beta": 1X2 odds
2.05 / 3.50 / 3.40). -/
def sampleD : BettingOdds :=
  { timestamp := 0, source := "beta", match_id := "m2",
    home_team := "Home", away_team := "Away",
    home_win := some (41/20), draw := some (7/2), away_win := some (17/5) }

theorem aggregator_boundary_spec_witness :
    find_arbitrage_opportunities [sampleA] = .ok [] ∧
    analyze_market "1x2" outcomes1x2 [sampleA] = .ok [] ∧
    analyze_market "1x2" outcomes1x2 [sampleC, sampleD] = .ok [] ∧
    find_arbitrage_opportunities [sampleA] = .ok [] :=
  ⟨(aggregator_boundary_spec [sampleA] "1x2" outcomes1x2 0).1 (by norm_num),
   (aggregator_boundary_spec [sampleA] "1x2" outcomes1x2 0).2.1 (by
     norm_num [validFor, qualifies, truthy, outcomes1x2, sampleA,
       List.filter_cons, List.all_cons]),
   (aggregator_boundary_spec [sampleC, sampleD] "1x2" outcomes1x2
       (45/1309)).2.2.1
     (by
       norm_num [marketMargin, validFor, qualifies, truthy, outcomes1x2,
         bestFor, listMax, mapExcept, optionToExcept,
         calculate_implied_probability, calculate_arbitrage_margin,
         sampleC, sampleD, List.filter_cons, List.filterMap_cons,
         List.all_cons])
     (by norm_num),
   (aggregator_boundary_spec [sampleA] "1x2" outcomes1x2 0).2.2.2 sampleA⟩

/-! ### Claim C6: contents of an emitted report entry -/

/-- C6: when a market's pipeline completes with a strictly negative
margin, the emitted entry carries exactly `|margin| * 100` rounded to 2
decimals as profit-margin percentage, the probability sum rounded to 4
decimals, the per-outcome best odds and sources, and the stake
distribution for the fixed reference stake of 100 units. -/
theorem opportunity_entry_spec (name : String) (outs : List MarketOutcome)
    (l : List BettingOdds) (bests probs stakes : List ℚ)
    (sources : List String)
    (hlen : ¬ (validFor outs l).length < 2)
    (hb : mapExcept (fun o => optionToExcept "max() arg is an empty sequence"
      (bestFor (validFor outs l) o.get)) outs = .ok bests)
    (hs : mapExcept (fun p => sourceFor (validFor outs l) p.1.get p.2)
      (outs.zip bests) = .ok sources)
    (hp : mapExcept calculate_implied_probability bests = .ok probs)
    (hm : calculate_arbitrage_margin probs < 0)
    (hk : calculate_stake_distribution bests 100 = .ok stakes) :
    analyze_market name outs l = .ok [(name,
      { profit_margin_percent :=
          pyRound (|calculate_arbitrage_margin probs| * 100) 2,
        total_implied_probability := pyRound probs.sum 4,
        best_odds := (outs.map MarketOutcome.label).zip bests,
        sources := (outs.map MarketOutcome.label).zip sources,
        stake_distribution_100 := stakes })] := by
  unfold analyze_market
  rw [if_neg hlen]
  simp only [hb, hs, hp, hk]
  rw [if_pos hm]

/-- A record quoting the both-teams-to-score market (source "gamma":
yes 4.0, no 3.5). -/
def sampleY : BettingOdds :=
  { timestamp := 0, source := "gamma", match_id := "m3",
    home_team := "Home", away_team := "Away",
    both_teams_score_yes := some 4, both_teams_score_no := some (7/2) }

/-- A record quoting the both-teams-to-score market (source "delta":
yes 3.5, no 4.0); together with `sampleY` it forms an arbitrage. -/
def sampleZ : BettingOdds :=
  { timestamp := 0, source := "delta", match_id := "m3",
    home_team := "Home", away_team := "Away",
    both_teams_score_yes := some (7/2), both_teams_score_no := some 4 }

theorem opportunity_entry_spec_witness :
    analyze_market "both_teams_score" outcomesBtts [sampleY, sampleZ] =
      .ok [("both_teams_score",
        { profit_margin_percent :=
            pyRound (|calculate_arbitrage_margin [1/4, 1/4]| * 100) 2,
          total_implied_probability :=
            pyRound ([1/4, 1/4] : List ℚ).sum 4,
          best_odds := (outcomesBtts.map MarketOutcome.label).zip [4, 4],
          sources :=
            (outcomesBtts.map MarketOutcome.label).zip ["gamma", "delta"],
          stake_distribution_100 := [50, 50] })] :=
  opportunity_entry_spec "both_teams_score" outcomesBtts [sampleY, sampleZ]
    [4, 4] [1/4, 1/4] [50, 50] ["gamma", "delta"]
    (by
      norm_num [validFor, qualifies, truthy, outcomesBtts, sampleY, sampleZ,
        List.filter_cons, List.all_cons])
    (by
      norm_num [validFor, qualifies, truthy, outcomesBtts, bestFor, listMax,
        mapExcept, optionToExcept, sampleY, sampleZ, List.filter_cons,
        List.filterMap_cons, List.all_cons])
    (by
      norm_num [validFor, qualifies, truthy, outcomesBtts, sourceFor,
        mapExcept, sampleY, sampleZ, List.filter_cons, List.all_cons,
        List.find?])
    (by norm_num [mapExcept, calculate_implied_probability])
    (by norm_num [calculate_arbitrage_margin])
    (by
      norm_num [calculate_stake_distribution, List.any_cons, List.any_nil]
      intro h
      exact (nomatch h))

/-! ### Claim C5: which markets the aggregator actually evaluates -/

/-- Modelled from the spec: the double chance outcome table
(home-or-draw / away-or-draw / home-or-away) that §2/§4.6 list among the
supported markets.  `ArbitrageAnalyzer` has no analyser using these
fields; the table exists here only to state what the code ignores. -/
def outcomesDC : List MarketOutcome :=
  [⟨"home_or_draw", BettingOdds.home_or_draw⟩,
   ⟨"away_or_draw", BettingOdds.away_or_draw⟩,
   ⟨"home_or_away", BettingOdds.home_or_away⟩]

/-- A record quoting only the double chance market, all outcomes at
odds 4.0 (source "epsilon"). -/
def dcE : BettingOdds :=
  { timestamp := 0, source := "epsilon", match_id := "m4",
    home_team := "Home", away_team := "Away",
    home_or_draw := some 4, away_or_draw := some 4, home_or_away := some 4 }

/-- A second such record (source "zeta"); together with `dcE` the double
chance margin is `3/4 - 1 = -1/4`, a clear arbitrage. -/
def dcF : BettingOdds :=
  { timestamp := 0, source := "zeta", match_id := "m4",
    home_team := "Home", away_team := "Away",
    home_or_draw := some 4, away_or_draw := some 4, home_or_away := some 4 }

/-- C5 counterexample: on an input whose double chance market has the
strictly negative margin `-1/4`, `find_arbitrage_opportunities` still
returns the empty report — no double chance (nor half-time) market is
analysed by the code. -/
theorem double_chance_counterexample :
    marketMargin outcomesDC [dcE, dcF] = .ok (-1/4) ∧
    find_arbitrage_opportunities [dcE, dcF] = .ok [] := by
  constructor
  · norm_num [marketMargin, validFor, qualifies, truthy, outcomesDC, bestFor,
      listMax, mapExcept, optionToExcept, calculate_implied_probability,
      calculate_arbitrage_margin, dcE, dcF, List.filter_cons,
      List.filterMap_cons, List.all_cons]
  · norm_num [find_arbitrage_opportunities, analyze_1x2_market,
      analyze_over_under_markets, analyze_btts_market, analyze_market,
      validFor, qualifies, truthy, outcomes1x2, outcomesOU25, outcomesOU35,
      outcomesBtts, dcE, dcF, List.filter_cons, List.all_cons]

/-- C5 (amended): the aggregator evaluates exactly the 1X2,
over/under 2.5, over/under 3.5 and both-teams-to-score markets; every
entry of a successful report is keyed by one of those four names, so no
double chance or half-time entry is ever produced. -/
theorem aggregator_supported_markets (l : List BettingOdds) (r : Report)
    (h : find_arbitrage_opportunities l = .ok r) :
    ∀ p ∈ r, p.1 ∈ (["1x2", "over_under_2_5", "over_under_3_5",
      "both_teams_score"] : List String) := by
  intro p hp
  rcases find_decomp h with ⟨_, rfl⟩ |
    ⟨r1, r25, r35, rb, h1, h25, h35, hbt, rfl⟩
  · exact absurd hp (List.not_mem_nil p)
  · rcases List.mem_append.mp hp with hp | hp
    · rcases List.mem_append.mp hp with hp | hp
      · have hk := (analyze_market_entry_inv h1 p hp).1
        simp [hk]
      · rcases List.mem_append.mp hp with hp | hp
        · have hk := (analyze_market_entry_inv h25 p hp).1
          simp [hk]
        · have hk := (analyze_market_entry_inv h35 p hp).1
          simp [hk]
    · have hk := (analyze_market_entry_inv hbt p hp).1
      simp [hk]

/-- The entry the aggregator produces on `[sampleY, sampleZ]`. -/
def bttsEntry : OpportunityEntry :=
  { profit_margin_percent := 50, total_implied_probability := 1/2,
    best_odds := [("yes", 4), ("no", 4)],
    sources := [("yes", "gamma"), ("no", "delta")],
    stake_distribution_100 := [50, 50] }

/-- Full evaluation of the aggregator on the two both-teams-to-score
records: a single report entry for that market. -/
theorem find_btts_eval :
    find_arbitrage_opportunities [sampleY, sampleZ] =
      .ok [("both_teams_score", bttsEntry)] := by
  norm_num [find_arbitrage_opportunities, analyze_1x2_market,
    analyze_over_under_markets, analyze_btts_market, analyze_market,
    validFor, qualifies, truthy, outcomes1x2, outcomesOU25, outcomesOU35,
    outcomesBtts, bestFor, listMax, mapExcept, optionToExcept, sourceFor,
    calculate_implied_probability, calculate_arbitrage_margin,
    calculate_stake_distribution, pyRound, roundHalfEven, bttsEntry,
    sampleY, sampleZ, List.filter_cons, List.filterMap_cons, List.all_cons,
    List.any_cons, List.any_nil, List.find?]
  rw [abs_of_nonneg (by norm_num : (0:ℚ) ≤ 1/2)]
  norm_num
  rw [if_neg (by simp : ¬([(4:ℚ), 4] = []))]

theorem aggregator_supported_markets_witness :
    ("both_teams_score" : String) ∈ (["1x2", "over_under_2_5",
      "over_under_3_5", "both_teams_score"] : List String) :=
  aggregator_supported_markets [sampleY, sampleZ]
    [("both_teams_score", bttsEntry)] find_btts_eval
    ("both_teams_score", bttsEntry) (List.mem_singleton.mpr rfl)

/-! ### Claim C10: the implicit output invariant -/

/-- C10: every entry of a successful aggregator report has best odds
whose implied probabilities sum strictly below `1` (the unrounded margin
is strictly negative), and every stake of its 100-unit reference
distribution is strictly positive. -/
theorem report_entry_invariant (l : List BettingOdds) (r : Report)
    (h : find_arbitrage_opportunities l = .ok r) :
    ∀ p ∈ r, ((p.2.best_odds.map fun q => 1 / q.2).sum < 1) ∧
      ∀ s ∈ p.2.stake_distribution_100, 0 < s := by
  intro p hp
  rcases find_decomp h with ⟨_, rfl⟩ |
    ⟨r1, r25, r35, rb, h1, h25, h35, hbt, rfl⟩
  · exact absurd hp (List.not_mem_nil p)
  · rcases List.mem_append.mp hp with hp | hp
    · rcases List.mem_append.mp hp with hp | hp
      · exact (analyze_market_entry_inv h1 p hp).2
      · rcases List.mem_append.mp hp with hp | hp
        · exact (analyze_market_entry_inv h25 p hp).2
        · exact (analyze_market_entry_inv h35 p hp).2
    · exact (analyze_market_entry_inv hbt p hp).2

theorem report_entry_invariant_witness :
    ((bttsEntry.best_odds.map fun q => 1 / q.2).sum < 1) ∧
      ∀ s ∈ bttsEntry.stake_distribution_100, 0 < s :=
  report_entry_invariant [sampleY, sampleZ]
    [("both_teams_score", bttsEntry)] find_btts_eval
    ("both_teams_score", bttsEntry) (List.mem_singleton.mpr rfl)
